import Mathlib

/-!
# amp.SDK, package `std` (`amp/std/std.attrs.go`)

A shallow embedding of the attribute declarations of package `std`: the
package-level identifier block, the `Position` and `FSInfo` value methods
(`MarshalToStore`, `TagSpec`, `New`) and the two `FSInfo` time setters.

The file `std.attrs.go` calls into packages `tag` and `amp` of the same
repository (`tag.Spec.With`, `tag.FromTime`, `amp.MarshalPbToStore`).  Their
definitions are modelled from the specification and marked as such; whatever
the specification leaves open (the hash, the name canonicalisation, the byte
encoding of a payload, the fields of the generated payload structs) is a
parameter.
-/

namespace Amp

/-! ## Machine integers -/

/-- Go conversion `int64(x)` of a `uint64` value `x`: the 64-bit pattern is kept and
read as a two's-complement number. -/
def toInt64 (n : Nat) : Int :=
  ((n : Int) + 2 ^ 63) % 2 ^ 64 - 2 ^ 63

/-- Go conversion `uint64(x)` of an `int64` value `x`. -/
def toUint64 (i : Int) : Nat :=
  (i % 2 ^ 64).toNat

/-! ## Package `tag`: identifiers -/

/-- Modelled from the spec: type `tag.Tag` (package `tag` is not part of the visible
source).  "Fixed-size sequence of unsigned integers (recommend 4×64-bit = 256 bits)";
`w0` is the most significant component, the one the code reads as `tag[0]`. -/
structure Tag where
  w0 : Nat
  w1 : Nat
  w2 : Nat
  w3 : Nat
  deriving DecidableEq, Repr

namespace Tag

/-- The all-zero sentinel ("unset/invalid"). -/
def zero : Tag := ⟨0, 0, 0, 0⟩

/-- Indexing `tag[i]`. -/
def word (t : Tag) : Fin 4 → Nat
  | 0 => t.w0
  | 1 => t.w1
  | 2 => t.w2
  | 3 => t.w3

/-- The Tag read as one 256-bit number, most significant component first. -/
def toNat (t : Tag) : Nat :=
  ((t.w0 * 2 ^ 64 + t.w1) * 2 ^ 64 + t.w2) * 2 ^ 64 + t.w3

/-- The Tag whose components are the four 64-bit digits of `n`. -/
def ofNat (n : Nat) : Tag :=
  ⟨n / 2 ^ 192 % 2 ^ 64, n / 2 ^ 128 % 2 ^ 64, n / 2 ^ 64 % 2 ^ 64, n % 2 ^ 64⟩

/-- Total order of Tags: "lexicographic over the sequence", most significant
component first. -/
def lt (a b : Tag) : Bool :=
  decide (a.w0 < b.w0) ||
  (decide (a.w0 = b.w0) && (decide (a.w1 < b.w1) ||
  (decide (a.w1 = b.w1) && (decide (a.w2 < b.w2) ||
  (decide (a.w2 = b.w2) && decide (a.w3 < b.w3))))))

end Tag

/-! ## Time -/

/-- An instant of Go's `time.Time`: the signed count of nanoseconds since the Unix
epoch (the location and the monotonic reading play no role here).  The count is not
bounded by 64 bits: `time.Time` reaches far beyond the range of `UnixNano`. -/
structure Time where
  nanos : Int
  deriving DecidableEq, Repr

namespace Time

/-- The instant `time.Unix(sec, nsec)`. -/
def unix (sec : Int) (nsec : Int) : Time := ⟨sec * 1000000000 + nsec⟩

/-- The instant is not later than the other (`!t1.After(t2)`). -/
def le (t1 t2 : Time) : Prop := t1.nanos ≤ t2.nanos

instance (t1 t2 : Time) : Decidable (le t1 t2) := by
  unfold le; infer_instance

/-- The instant as a count of whole ticks since the Unix epoch, at `res` ticks per
second (rounded towards the past); a negative count for an instant before the epoch. -/
def ticks (res : Nat) (t : Time) : Int := t.nanos * res / 1000000000

end Time

/-- Modelled from the spec: the time encoding inside `tag.FromTime` (package `tag` is
not part of the visible source).  "Encodes the timestamp (at microsecond or finer
resolution) into the most-significant component(s) of the Tag", and the first component
"must equal the encoded time scaled into that representation": the count of ticks since
the Unix epoch, as an unsigned 64-bit word.  The spec leaves the resolution to the
implementer, so the number `res` of ticks per second is a parameter.  The spec is
silent on a count outside the 64-bit range; the reduction modulo `2^64` only keeps the
component a `uint64`, and no result below rests on what it does to such a count. -/
def encodeTime (res : Nat) (t : Time) : Nat :=
  (t.ticks res % 2 ^ 64).toNat

/-- The per-process state of monotonic Time-Tag generation: the Tag issued last. -/
structure Issuer where
  last : Tag
  deriving DecidableEq, Repr

/-- Modelled from the spec: `tag.FromTime(t, monotonic)` (package `tag` is not part
of the visible source).

* The encoded time is the most significant component.
* "Packs a disambiguating suffix (a counter when `monotonic=true` ...; otherwise a
  random/opaque value) into the remaining components": without `monotonic` the three
  remaining components are the `entropy` drawn for this call.
* With `monotonic`, a Tag that would not exceed the Tag issued last is clamped "to
  last issued + 1 rather than the raw clock reading", the suffix being the counter.

The result is the Tag together with the state of the issuer after the call. -/
def FromTime (res : Nat) (g : Issuer) (t : Time) (monotonic : Bool)
    (entropy : Nat × Nat × Nat) : Tag × Issuer :=
  let stamp := encodeTime res t
  if monotonic then
    let raw : Tag := ⟨stamp, 0, 0, 0⟩
    let issued := if Tag.lt g.last raw then raw else Tag.ofNat (g.last.toNat + 1)
    (issued, { last := issued })
  else
    (⟨stamp, entropy.1 % 2 ^ 64, entropy.2.1 % 2 ^ 64, entropy.2.2 % 2 ^ 64⟩, g)

/-! ## Payload types -/

/-- The generated struct `FSInfo`.  `CreatedAt` and `ModifiedAt` are the `int64`
fields the setters write; the struct declaration is not part of the visible source, so
all its other fields are kept together in `rest`, of a type `R` left open. -/
structure FSInfo (R : Type) where
  CreatedAt : Int
  ModifiedAt : Int
  rest : R
  deriving DecidableEq, Repr

/-- The generated struct `Position`; its declaration is not part of the visible
source, so its fields are kept together in `fields`, of a type `P` left open. -/
structure Position (P : Type) where
  fields : P
  deriving DecidableEq, Repr

/-- Method `func (v *FSInfo) SetModifiedAt(t time.Time)`: the receiver after the call.
The resolution `res`, the issuer state `g` and the `entropy` are what `tag.FromTime`
has and reads besides its arguments. -/
def FSInfo.SetModifiedAt {R : Type} (v : FSInfo R) (t : Time) (res : Nat) (g : Issuer)
    (entropy : Nat × Nat × Nat) : FSInfo R :=
  let tag := (FromTime res g t false entropy).1
  { v with ModifiedAt := toInt64 (tag.word 0) }

/-- Method `func (v *FSInfo) SetCreatedAt(t time.Time)`: the receiver after the call. -/
def FSInfo.SetCreatedAt {R : Type} (v : FSInfo R) (t : Time) (res : Nat) (g : Issuer)
    (entropy : Nat × Nat × Nat) : FSInfo R :=
  let tag := (FromTime res g t false entropy).1
  { v with CreatedAt := toInt64 (tag.word 0) }

/-! ## Package `tag`: the Spec namespace -/

/-- Error kinds of the identity layer. -/
inductive Error
  | InvalidName
  | DuplicateRegistration
  | UnknownAttribute
  | EncodingError
  | DecodingError
  deriving DecidableEq, Repr

/-- Modelled from the spec: type `tag.Spec` (package `tag` is not part of the visible
source).  An "immutable hierarchical namespace node (name + parent reference)" with its
`ID`; "root Specs have no parent". -/
inductive Spec
  | root (Name : String) (ID : Tag)
  | child (Name : String) (Parent : Spec) (ID : Tag)
  deriving DecidableEq, Repr

namespace Spec

/-- Field `ID` of a Spec. -/
def ID : Spec → Tag
  | root _ id => id
  | child _ _ id => id

/-- Field `Name` of a Spec. -/
def Name : Spec → String
  | root n _ => n
  | child n _ _ => n

/-- Field `Parent` of a Spec. -/
def Parent : Spec → Option Spec
  | root _ _ => none
  | child _ p _ => some p

/-- The composite literal `tag.Spec{}`: every field has its zero value. -/
def zero : Spec := root "" Tag.zero

end Spec

/-- The parts of the derivation the spec fixes without defining them: `Hash`, "a fixed,
versioned, one-way function", and the canonicalisation of a name, which either rejects
the name or normalises it. -/
structure Scheme where
  Hash : Tag → String → Tag
  canonicalize : String → Option String

/-- The process-local child cache: the child derived so far for a parent and a
canonical name. -/
abbrev Cache := List ((Spec × String) × Spec)

/-- A computation that reads and extends the child cache and may fail. -/
abbrev Derive := StateT Cache (Except Error)

/-- The child Spec of `p` for the canonical name `n`:
`child.ID = Hash(parent.ID ‖ canonicalize(name))`. -/
def Spec.derive (d : Scheme) (p : Spec) (n : String) : Spec :=
  Spec.child n p (d.Hash p.ID n)

/-- Modelled from the spec: `(tag.Spec).With(name)` (package `tag` is not part of the
visible source).  An empty or malformed name fails at derivation time; otherwise the
call "returns the existing child Spec if one with that exact name was already derived
from this parent in the current process; otherwise derives a new child" and "inserts
the new Spec into a per-parent child cache". -/
def Spec.With (d : Scheme) (p : Spec) (name : String) : Derive Spec := fun c =>
  if name = "" then .error Error.InvalidName
  else
    match d.canonicalize name with
    | none => .error Error.InvalidName
    | some n =>
      match c.lookup (p, n) with
      | some s => .ok (s, c)
      | none =>
        let s := Spec.derive d p n
        .ok (s, ((p, n), s) :: c)

/-- Deriving the child of `p` named `name` afresh, with no cache consulted. -/
def Spec.rederive (d : Scheme) (p : Spec) (name : String) : Except Error Spec :=
  if name = "" then .error Error.InvalidName
  else
    match d.canonicalize name with
    | none => .error Error.InvalidName
    | some n => .ok (Spec.derive d p n)

/-- Every cached child is the one derivation gives for its parent and name. -/
def Consistent (d : Scheme) (c : Cache) : Prop :=
  ∀ p n s, ((p, n), s) ∈ c → s = Spec.derive d p n

/-- The caches a process can be in: empty at start, then extended by calls of `With`,
in any order and on any parents and names. -/
inductive Reachable (d : Scheme) : Cache → Prop
  | empty : Reachable d []
  | step {c c2 : Cache} {p : Spec} {name : String} {s : Spec} :
      Reachable d c → Spec.With d p name c = .ok (s, c2) → Reachable d c2

/-- The computation `m` has the outcome `r` from every consistent cache, and leaves the
cache consistent. -/
def Stable {α : Type} (d : Scheme) (m : Derive α) (r : Except Error α) : Prop :=
  ∀ c, Consistent d c →
    match r with
    | .error e => m c = .error e
    | .ok x => ∃ c2, m c = .ok (x, c2) ∧ Consistent d c2

/-! ## Package `std`: declarations of `std.attrs.go` -/

/-- The identifiers of the package-level `var` block. -/
structure Vars where
  LoginSpec : Tag
  LoginChallengeSpec : Tag
  LoginResponseSpec : Tag
  LoginCheckpointSpec : Tag
  CellChildren : Spec
  CellProperties : Spec
  LaunchURL : Tag
  CellProperty : Spec
  CellLabel : Tag
  CellCaption : Tag
  CellSynopsis : Tag
  CellCollection : Tag
  CellGlyphs : Tag
  CellContentLink : Tag
  CellAuthor : Tag
  CellExternalLinks : Tag
  CellFileInfo : Tag
  CellPortrait : Tag
  deriving DecidableEq, Repr

/-- The package-level `var` block: the derivations run in declaration order when the
package is initialised, on the cache the process has by then.  `AttrSpec` is the
variable `amp.AttrSpec`, declared outside the visible source. -/
def initVars (d : Scheme) (AttrSpec : Spec) : Derive Vars := do
  let login ← Spec.With d AttrSpec "Login"
  let loginChallenge ← Spec.With d AttrSpec "LoginChallenge"
  let loginResponse ← Spec.With d AttrSpec "LoginResponse"
  let loginCheckpoint ← Spec.With d AttrSpec "LoginCheckpoint"
  let cellChildren ← Spec.With d AttrSpec "children.TagID"
  let cellProperties ← Spec.With d AttrSpec "cell-properties"
  let launchURL ← Spec.With d AttrSpec "LaunchURL"
  let cellProperty ← Spec.With d Spec.zero "cell-property"
  let cellLabel ← Spec.With d cellProperty "text.Tag.label"
  let cellCaption ← Spec.With d cellProperty "text.Tag.caption"
  let cellSynopsis ← Spec.With d cellProperty "text.Tag.synopsis"
  let cellCollection ← Spec.With d cellProperty "text.Tag.collection"
  let cellGlyphs ← Spec.With d cellProperty "Tag.glyphs"
  let cellContentLink ← Spec.With d cellProperty "content-link"
  let cellAuthor ← Spec.With d cellProperty "author"
  let cellExternalLinks ← Spec.With d cellProperty "external-link"
  let cellFileInfo ← Spec.With d cellProperty "FileInfo"
  let cellPortrait ← Spec.With d cellProperty "portrait"
  pure {
    LoginSpec := login.ID
    LoginChallengeSpec := loginChallenge.ID
    LoginResponseSpec := loginResponse.ID
    LoginCheckpointSpec := loginCheckpoint.ID
    CellChildren := cellChildren
    CellProperties := cellProperties
    LaunchURL := launchURL.ID
    CellProperty := cellProperty
    CellLabel := cellLabel.ID
    CellCaption := cellCaption.ID
    CellSynopsis := cellSynopsis.ID
    CellCollection := cellCollection.ID
    CellGlyphs := cellGlyphs.ID
    CellContentLink := cellContentLink.ID
    CellAuthor := cellAuthor.ID
    CellExternalLinks := cellExternalLinks.ID
    CellFileInfo := cellFileInfo.ID
    CellPortrait := cellPortrait.ID }

/-- The identifiers of the `var` block, each derived afresh from its parent and name. -/
def rederiveVars (d : Scheme) (AttrSpec : Spec) : Except Error Vars := do
  let login ← Spec.rederive d AttrSpec "Login"
  let loginChallenge ← Spec.rederive d AttrSpec "LoginChallenge"
  let loginResponse ← Spec.rederive d AttrSpec "LoginResponse"
  let loginCheckpoint ← Spec.rederive d AttrSpec "LoginCheckpoint"
  let cellChildren ← Spec.rederive d AttrSpec "children.TagID"
  let cellProperties ← Spec.rederive d AttrSpec "cell-properties"
  let launchURL ← Spec.rederive d AttrSpec "LaunchURL"
  let cellProperty ← Spec.rederive d Spec.zero "cell-property"
  let cellLabel ← Spec.rederive d cellProperty "text.Tag.label"
  let cellCaption ← Spec.rederive d cellProperty "text.Tag.caption"
  let cellSynopsis ← Spec.rederive d cellProperty "text.Tag.synopsis"
  let cellCollection ← Spec.rederive d cellProperty "text.Tag.collection"
  let cellGlyphs ← Spec.rederive d cellProperty "Tag.glyphs"
  let cellContentLink ← Spec.rederive d cellProperty "content-link"
  let cellAuthor ← Spec.rederive d cellProperty "author"
  let cellExternalLinks ← Spec.rederive d cellProperty "external-link"
  let cellFileInfo ← Spec.rederive d cellProperty "FileInfo"
  let cellPortrait ← Spec.rederive d cellProperty "portrait"
  pure {
    LoginSpec := login.ID
    LoginChallengeSpec := loginChallenge.ID
    LoginResponseSpec := loginResponse.ID
    LoginCheckpointSpec := loginCheckpoint.ID
    CellChildren := cellChildren
    CellProperties := cellProperties
    LaunchURL := launchURL.ID
    CellProperty := cellProperty
    CellLabel := cellLabel.ID
    CellCaption := cellCaption.ID
    CellSynopsis := cellSynopsis.ID
    CellCollection := cellCollection.ID
    CellGlyphs := cellGlyphs.ID
    CellContentLink := cellContentLink.ID
    CellAuthor := cellAuthor.ID
    CellExternalLinks := cellExternalLinks.ID
    CellFileInfo := cellFileInfo.ID
    CellPortrait := cellPortrait.ID }

/-- URL of a glyph, typically followed by a media (mime) type. -/
def GenericGlyphURL : String := "amp:glyph/"

/-- Constant `GenericImageType`. -/
def GenericImageType : String := "image/*"

/-- Constant `GenericAudioType`. -/
def GenericAudioType : String := "audio/*"

/-- Constant `GenericVideoType`. -/
def GenericVideoType : String := "video/*"

/-- The struct `PinnableAttr`. -/
structure PinnableAttr where
  Spec : Spec
  deriving DecidableEq, Repr

/-- The interface `tag.Value`, as far as this file implements it: a value is a
`*Position` or a `*FSInfo`. -/
inductive Value (P R : Type)
  | position (v : Position P)
  | fsinfo (v : FSInfo R)
  deriving DecidableEq, Repr

/-- Modelled from the spec: `amp.MarshalPbToStore(v, in)` (package `amp` is not part of
the visible source).  "Append this instance's encoded form to `buffer` and return the
extended buffer; fails with `EncodingError` if internal invariants of the payload are
violated."  The byte encoding of a payload is the parameter `encode`, which has no
result for a payload that violates them. -/
def MarshalPbToStore {P R : Type} (encode : Value P R → Option (List UInt8))
    (v : Value P R) (inp : List UInt8) : Except Error (List UInt8) :=
  match encode v with
  | none => .error Error.EncodingError
  | some b => .ok (inp ++ b)

/-- Method `func (v *Position) MarshalToStore(in []byte) (out []byte, err error)`. -/
def Position.MarshalToStore {P R : Type} (encode : Value P R → Option (List UInt8))
    (v : Position P) (inp : List UInt8) : Except Error (List UInt8) :=
  MarshalPbToStore encode (Value.position v) inp

/-- Method `func (v *Position) TagSpec() tag.Spec`. -/
def Position.TagSpec {P : Type} (d : Scheme) (AttrSpec : Spec) (_v : Position P) :
    Derive Spec :=
  Spec.With d AttrSpec "Position"

/-- Method `func (v *Position) New() tag.Value`: a pointer to a new `Position{}`, each
field with its zero value (`default`). -/
def Position.New {P : Type} (R : Type) [Inhabited P] (_v : Position P) : Value P R :=
  Value.position { fields := default }

/-- Method `func (v *FSInfo) MarshalToStore(in []byte) (out []byte, err error)`. -/
def FSInfo.MarshalToStore {P R : Type} (encode : Value P R → Option (List UInt8))
    (v : FSInfo R) (inp : List UInt8) : Except Error (List UInt8) :=
  MarshalPbToStore encode (Value.fsinfo v) inp

/-- Method `func (v *FSInfo) TagSpec() tag.Spec`. -/
def FSInfo.TagSpec {R : Type} (d : Scheme) (AttrSpec : Spec) (_v : FSInfo R) :
    Derive Spec :=
  Spec.With d AttrSpec "FSInfo"

/-- Method `func (v *FSInfo) New() tag.Value`: a pointer to a new `FSInfo{}`, each field
with its zero value. -/
def FSInfo.New {R : Type} (P : Type) [Inhabited R] (_v : FSInfo R) : Value P R :=
  Value.fsinfo { CreatedAt := 0, ModifiedAt := 0, rest := default }

/-- Call of `TagSpec` through the interface `tag.Value`. -/
def Value.TagSpec {P R : Type} (d : Scheme) (AttrSpec : Spec) : Value P R → Derive Spec
  | Value.position v => v.TagSpec d AttrSpec
  | Value.fsinfo v => v.TagSpec d AttrSpec

/-- Call of `New` through the interface `tag.Value`. -/
def Value.New {P R : Type} [Inhabited P] [Inhabited R] : Value P R → Value P R
  | Value.position v => v.New R
  | Value.fsinfo v => v.New P

/-- Call of `MarshalToStore` through the interface `tag.Value`. -/
def Value.MarshalToStore {P R : Type} (encode : Value P R → Option (List UInt8))
    (inp : List UInt8) : Value P R → Except Error (List UInt8)
  | Value.position v => v.MarshalToStore encode inp
  | Value.fsinfo v => v.MarshalToStore encode inp

/-! ## Sample instances, for evaluation -/

/-- A derivation scheme to evaluate with: every name is canonical, and the hash mixes
the parent's components with the length of the name. -/
def sampleScheme : Scheme where
  Hash := fun p n => ⟨p.w0 + n.length, p.w1 + 1, n.length, 1⟩
  canonicalize := fun n => some n

/-- A root Spec to evaluate with, in the place of `amp.AttrSpec`. -/
def sampleAttrSpec : Spec := Spec.root "attr" ⟨1, 2, 3, 4⟩

/-- A byte encoding to evaluate with; an `FSInfo` with a negative `CreatedAt` has
none. -/
def sampleEncode : Value Nat Nat → Option (List UInt8)
  | Value.position v => some [1, UInt8.ofNat v.fields]
  | Value.fsinfo v => if v.CreatedAt < 0 then none else some [2, UInt8.ofNat v.rest]

/-! ## Lemmas on the conversions -/

theorem encodeTime_lt (res : Nat) (t : Time) : encodeTime res t < 2 ^ 64 := by
  unfold encodeTime
  have h1 : (0 : Int) ≤ t.ticks res % 2 ^ 64 := Int.emod_nonneg _ (by norm_num)
  have h2 : t.ticks res % 2 ^ 64 < 2 ^ 64 := Int.emod_lt_of_pos _ (by norm_num)
  omega

theorem FromTime_word0 (res : Nat) (g : Issuer) (t : Time) (entropy : Nat × Nat × Nat) :
    (FromTime res g t false entropy).1.word 0 = encodeTime res t := by
  simp [FromTime, Tag.word]

/-! ## Lemmas on derivation -/

theorem lookup_mem {κ β : Type} [BEq κ] [LawfulBEq κ] (c : List (κ × β)) (k : κ) (s : β)
    (h : c.lookup k = some s) : (k, s) ∈ c := by
  induction c with
  | nil => simp at h
  | cons hd tl ih =>
    obtain ⟨k2, v2⟩ := hd
    by_cases hk : k = k2
    · subst hk
      simp [List.lookup] at h
      simp [h]
    · have : (k == k2) = false := by simpa using hk
      simp [List.lookup, this] at h
      exact List.mem_cons_of_mem _ (ih h)

theorem Stable_With (d : Scheme) (p : Spec) (name : String) :
    Stable d (Spec.With d p name) (Spec.rederive d p name) := by
  intro c hc
  unfold Spec.rederive Spec.With
  by_cases h0 : name = ""
  · simp [h0]
  · simp only [h0, if_false]
    cases hn : d.canonicalize name with
    | none => simp
    | some n =>
      simp only
      cases hl : c.lookup (p, n) with
      | some s =>
        have := hc p n s (lookup_mem c (p, n) s hl)
        exact ⟨c, by simp [this], hc⟩
      | none =>
        refine ⟨_, rfl, ?_⟩
        intro p2 n2 s2 hm
        rcases List.mem_cons.1 hm with h | h
        · cases h; rfl
        · exact hc p2 n2 s2 h

theorem Stable_pure {α : Type} (d : Scheme) (x : α) :
    Stable d (pure x : Derive α) (pure x) := by
  intro c hc
  exact ⟨c, rfl, hc⟩

theorem Stable_bind {α β : Type} (d : Scheme) {m : Derive α} {r : Except Error α}
    {f : α → Derive β} {k : α → Except Error β}
    (hm : Stable d m r) (hf : ∀ x, Stable d (f x) (k x)) :
    Stable d (m >>= f) (r >>= k) := by
  intro c hc
  have h1 := hm c hc
  cases r with
  | error e =>
    simp only at h1
    show (m >>= f) c = _
    simp [bind, StateT.bind, h1, Except.bind]
  | ok x =>
    obtain ⟨c2, h2, hc2⟩ := h1
    have h3 := hf x c2 hc2
    have e1 : (m >>= f) c = f x c2 := by
      simp [bind, StateT.bind, h2, Except.bind]
    have e2 : ((Except.ok x : Except Error α) >>= k) = k x := rfl
    rw [e2]
    cases hk : k x with
    | error e => rw [hk] at h3; simp only at h3 ⊢; rw [e1]; exact h3
    | ok y => rw [hk] at h3; simp only at h3 ⊢; rw [e1]; exact h3

theorem Stable_initVars (d : Scheme) (A : Spec) :
    Stable d (initVars d A) (rederiveVars d A) := by
  unfold initVars rederiveVars
  repeat (first
    | exact Stable_pure d _
    | (refine Stable_bind d (Stable_With d _ _) ?_; intro _))

theorem Stable.run {α : Type} {d : Scheme} {m : Derive α} {r : Except Error α}
    (h : Stable d m r) {c : Cache} (hc : Consistent d c) :
    Except.map Prod.fst (m c) = r := by
  have h1 := h c hc
  cases r with
  | error e => simp only at h1; rw [h1]; rfl
  | ok x => obtain ⟨c2, h2, -⟩ := h1; rw [h2]; rfl

theorem Reachable.consistent {d : Scheme} {c : Cache} (h : Reachable d c) :
    Consistent d c := by
  induction h with
  | empty => intro p n s hm; simp at hm
  | @step c c2 p name s _ hw ih =>
    have h1 := Stable_With d p name c ih
    cases hr : Spec.rederive d p name with
    | error e => rw [hr] at h1; simp only at h1; rw [h1] at hw; cases hw
    | ok x =>
      rw [hr] at h1
      obtain ⟨c3, h3, hc3⟩ := h1
      rw [h3] at hw
      cases hw
      exact hc3


theorem With_again {d : Scheme} {p : Spec} {name : String} {c c2 : Cache} {s : Spec}
    (h : Spec.With d p name c = .ok (s, c2)) : Spec.With d p name c2 = .ok (s, c2) := by
  unfold Spec.With at h ⊢
  by_cases h0 : name = ""
  · simp [h0] at h
  · simp only [h0, if_false] at h ⊢
    cases hn : d.canonicalize name with
    | none => simp [hn] at h
    | some n =>
      simp only [hn] at h ⊢
      cases hl : c.lookup (p, n) with
      | some s2 =>
        simp only [hl] at h
        cases h
        simp [hl]
      | none =>
        simp only [hl] at h
        cases h
        simp [List.lookup]

theorem bind_ok {α β : Type} {r : Except Error α} {k : α → Except Error β} {y : β}
    (h : (r >>= k) = .ok y) : ∃ x, r = .ok x ∧ k x = .ok y := by
  cases r with
  | error e => cases h
  | ok x => exact ⟨x, rfl, h⟩

theorem With_ID {d : Scheme} {p : Spec} {name : String} {c : Cache} {s : Spec}
    (hc : Reachable d c) (h : Spec.rederive d p name = .ok s) :
    Except.map (fun r => r.1.ID) (Spec.With d p name c) = .ok s.ID := by
  have h1 := Stable_With d p name c hc.consistent
  rw [h] at h1
  obtain ⟨c2, h2, -⟩ := h1
  rw [h2]; rfl

theorem With_Spec {d : Scheme} {p : Spec} {name : String} {c : Cache} {s : Spec}
    (hc : Reachable d c) (h : Spec.rederive d p name = .ok s) :
    Except.map Prod.fst (Spec.With d p name c) = .ok s := by
  rw [(Stable_With d p name).run hc.consistent, h]

/-! ## Identifiers and the value methods -/

/-- Claim C6: derivation is deterministic.  In any two caches a process can reach,
`p.With(n).ID` has the same outcome, so does the whole `var` block, and every
identifier the block declares is the one obtained by deriving it again from the same
parent and name, in whatever state the other derivations left the cache. -/
theorem C6_derivation_deterministic (d : Scheme) (AttrSpec p : Spec) (name : String)
    (c1 c2 : Cache) (h1 : Reachable d c1) (h2 : Reachable d c2) :
    Except.map (fun r => r.1.ID) (Spec.With d p name c1) =
      Except.map (fun r => r.1.ID) (Spec.With d p name c2) ∧
    Except.map Prod.fst (initVars d AttrSpec c1) =
      Except.map Prod.fst (initVars d AttrSpec c2) ∧
    ∀ vars c3, initVars d AttrSpec c1 = .ok (vars, c3) →
      Except.map (fun r => r.1.ID) (Spec.With d AttrSpec "Login" c2)
        = .ok vars.LoginSpec ∧
      Except.map (fun r => r.1.ID) (Spec.With d AttrSpec "LoginChallenge" c2)
        = .ok vars.LoginChallengeSpec ∧
      Except.map (fun r => r.1.ID) (Spec.With d AttrSpec "LoginResponse" c2)
        = .ok vars.LoginResponseSpec ∧
      Except.map (fun r => r.1.ID) (Spec.With d AttrSpec "LoginCheckpoint" c2)
        = .ok vars.LoginCheckpointSpec ∧
      Except.map Prod.fst (Spec.With d AttrSpec "children.TagID" c2)
        = .ok vars.CellChildren ∧
      Except.map Prod.fst (Spec.With d AttrSpec "cell-properties" c2)
        = .ok vars.CellProperties ∧
      Except.map (fun r => r.1.ID) (Spec.With d AttrSpec "LaunchURL" c2)
        = .ok vars.LaunchURL ∧
      Except.map Prod.fst (Spec.With d Spec.zero "cell-property" c2)
        = .ok vars.CellProperty ∧
      Except.map (fun r => r.1.ID) (Spec.With d vars.CellProperty "text.Tag.label" c2)
        = .ok vars.CellLabel ∧
      Except.map (fun r => r.1.ID) (Spec.With d vars.CellProperty "text.Tag.caption" c2)
        = .ok vars.CellCaption ∧
      Except.map (fun r => r.1.ID) (Spec.With d vars.CellProperty "text.Tag.synopsis" c2)
        = .ok vars.CellSynopsis ∧
      Except.map (fun r => r.1.ID) (Spec.With d vars.CellProperty "text.Tag.collection" c2)
        = .ok vars.CellCollection ∧
      Except.map (fun r => r.1.ID) (Spec.With d vars.CellProperty "Tag.glyphs" c2)
        = .ok vars.CellGlyphs ∧
      Except.map (fun r => r.1.ID) (Spec.With d vars.CellProperty "content-link" c2)
        = .ok vars.CellContentLink ∧
      Except.map (fun r => r.1.ID) (Spec.With d vars.CellProperty "author" c2)
        = .ok vars.CellAuthor ∧
      Except.map (fun r => r.1.ID) (Spec.With d vars.CellProperty "external-link" c2)
        = .ok vars.CellExternalLinks ∧
      Except.map (fun r => r.1.ID) (Spec.With d vars.CellProperty "FileInfo" c2)
        = .ok vars.CellFileInfo ∧
      Except.map (fun r => r.1.ID) (Spec.With d vars.CellProperty "portrait" c2)
        = .ok vars.CellPortrait := by
  refine ⟨?_, ?_, ?_⟩
  · have e1 := (Stable_With d p name).run h1.consistent
    have e2 := (Stable_With d p name).run h2.consistent
    have : ∀ x : Except Error (Spec × Cache), Except.map (fun r => r.1.ID) x
        = Except.map Spec.ID (Except.map Prod.fst x) := by
      intro x; cases x <;> rfl
    rw [this, this, e1, e2]
  · rw [(Stable_initVars d AttrSpec).run h1.consistent,
      (Stable_initVars d AttrSpec).run h2.consistent]
  · intro vars c3 hv
    have hr : rederiveVars d AttrSpec = .ok vars := by
      rw [← (Stable_initVars d AttrSpec).run h1.consistent, hv]; rfl
    unfold rederiveVars at hr
    obtain ⟨s1, e1, hr⟩ := bind_ok hr
    obtain ⟨s2, e2, hr⟩ := bind_ok hr
    obtain ⟨s3, e3, hr⟩ := bind_ok hr
    obtain ⟨s4, e4, hr⟩ := bind_ok hr
    obtain ⟨s5, e5, hr⟩ := bind_ok hr
    obtain ⟨s6, e6, hr⟩ := bind_ok hr
    obtain ⟨s7, e7, hr⟩ := bind_ok hr
    obtain ⟨s8, e8, hr⟩ := bind_ok hr
    obtain ⟨s9, e9, hr⟩ := bind_ok hr
    obtain ⟨s10, e10, hr⟩ := bind_ok hr
    obtain ⟨s11, e11, hr⟩ := bind_ok hr
    obtain ⟨s12, e12, hr⟩ := bind_ok hr
    obtain ⟨s13, e13, hr⟩ := bind_ok hr
    obtain ⟨s14, e14, hr⟩ := bind_ok hr
    obtain ⟨s15, e15, hr⟩ := bind_ok hr
    obtain ⟨s16, e16, hr⟩ := bind_ok hr
    obtain ⟨s17, e17, hr⟩ := bind_ok hr
    obtain ⟨s18, e18, hr⟩ := bind_ok hr
    cases hr
    exact ⟨With_ID h2 e1, With_ID h2 e2, With_ID h2 e3, With_ID h2 e4, With_Spec h2 e5,
      With_Spec h2 e6, With_ID h2 e7, With_Spec h2 e8, With_ID h2 e9, With_ID h2 e10,
      With_ID h2 e11, With_ID h2 e12, With_ID h2 e13, With_ID h2 e14, With_ID h2 e15,
      With_ID h2 e16, With_ID h2 e17, With_ID h2 e18⟩

/-- Witness for C6: the block evaluated on the sample scheme, then `Login` and
`text.Tag.label` derived again after an unrelated derivation. -/
theorem C6_derivation_deterministic_witness :
    Reachable sampleScheme [] ∧
    Reachable sampleScheme [((sampleAttrSpec, "Position"), Spec.derive sampleScheme sampleAttrSpec "Position")] ∧
    Except.map (fun r => r.1.ID) (Spec.With sampleScheme sampleAttrSpec "Login"
      [((sampleAttrSpec, "Position"), Spec.derive sampleScheme sampleAttrSpec "Position")])
      = .ok ⟨6, 3, 5, 1⟩ ∧
    Except.map (fun r => r.1.ID) (Spec.With sampleScheme
      (Spec.derive sampleScheme Spec.zero "cell-property") "text.Tag.label"
      [((sampleAttrSpec, "Position"), Spec.derive sampleScheme sampleAttrSpec "Position")])
      = .ok ⟨27, 2, 14, 1⟩ :=
  have r2 : Reachable sampleScheme
      [((sampleAttrSpec, "Position"), Spec.derive sampleScheme sampleAttrSpec "Position")] :=
    @Reachable.step sampleScheme [] _ sampleAttrSpec "Position" _ Reachable.empty rfl
  have h := (C6_derivation_deterministic sampleScheme sampleAttrSpec sampleAttrSpec "Login" [] _
    Reachable.empty r2).2.2 _ _ rfl
  ⟨Reachable.empty, r2, h.1, h.2.2.2.2.2.2.2.2.1⟩

/-- Claim C3: `MarshalToStore` of a `Position` and of an `FSInfo` is the call
`amp.MarshalPbToStore(v, in)`, result and error unchanged; when it returns no error the
returned buffer is `in` followed by the encoding of `v`, so `in` is its leading part,
byte for byte. -/
theorem C3_marshal_appends {P R : Type} (encode : Value P R → Option (List UInt8))
    (v : Position P) (w : FSInfo R) (inp : List UInt8) :
    v.MarshalToStore encode inp = MarshalPbToStore encode (Value.position v) inp ∧
    w.MarshalToStore encode inp = MarshalPbToStore encode (Value.fsinfo w) inp ∧
    (∀ out, v.MarshalToStore encode inp = .ok out →
      ∃ b, encode (Value.position v) = some b ∧ out = inp ++ b ∧
        inp <+: out ∧ out.take inp.length = inp) ∧
    (∀ out, w.MarshalToStore encode inp = .ok out →
      ∃ b, encode (Value.fsinfo w) = some b ∧ out = inp ++ b ∧
        inp <+: out ∧ out.take inp.length = inp) := by
  refine ⟨rfl, rfl, ?_, ?_⟩
  · intro out h
    unfold Position.MarshalToStore MarshalPbToStore at h
    cases he : encode (Value.position v) with
    | none => rw [he] at h; cases h
    | some b =>
      rw [he] at h
      cases h
      exact ⟨b, rfl, rfl, List.prefix_append _ _, List.take_left _ _⟩
  · intro out h
    unfold FSInfo.MarshalToStore MarshalPbToStore at h
    cases he : encode (Value.fsinfo w) with
    | none => rw [he] at h; cases h
    | some b =>
      rw [he] at h
      cases h
      exact ⟨b, rfl, rfl, List.prefix_append _ _, List.take_left _ _⟩

/-- Witness for C3: a `Position` and an `FSInfo` marshalled onto a buffer of three
bytes with the sample encoding. -/
theorem C3_marshal_appends_witness :
    Position.MarshalToStore sampleEncode (⟨5⟩ : Position Nat) [7, 8, 9] = .ok [7, 8, 9, 1, 5] ∧
    FSInfo.MarshalToStore sampleEncode (⟨3, 4, 6⟩ : FSInfo Nat) [7, 8, 9] = .ok [7, 8, 9, 2, 6] ∧
    (∃ b, sampleEncode (Value.position ⟨5⟩) = some b ∧ [7, 8, 9, 1, 5] = [7, 8, 9] ++ b ∧
      ([7, 8, 9] : List UInt8) <+: [7, 8, 9, 1, 5] ∧
      ([7, 8, 9, 1, 5] : List UInt8).take ([7, 8, 9] : List UInt8).length = [7, 8, 9]) :=
  ⟨rfl, rfl,
    (C3_marshal_appends sampleEncode (⟨5⟩ : Position Nat) (⟨3, 4, 6⟩ : FSInfo Nat)
      [7, 8, 9]).2.2.1 [7, 8, 9, 1, 5] rfl⟩

/-- Claim C4: `TagSpec` is constant per type.  Any two `Position` values, in any two
caches a process can reach, report the same Spec, the one `amp.AttrSpec.With` gives for
the name `Position`; likewise any two `FSInfo` values for the name `FSInfo`; and a call
repeated on the same value returns the same Spec again. -/
theorem C4_tagspec_constant {P R : Type} (d : Scheme) (AttrSpec : Spec)
    (a b : Position P) (x y : FSInfo R) (c1 c2 : Cache)
    (h1 : Reachable d c1) (h2 : Reachable d c2) :
    Except.map Prod.fst (a.TagSpec d AttrSpec c1) =
      Except.map Prod.fst (b.TagSpec d AttrSpec c2) ∧
    a.TagSpec d AttrSpec = Spec.With d AttrSpec "Position" ∧
    Except.map Prod.fst (a.TagSpec d AttrSpec c1) = Spec.rederive d AttrSpec "Position" ∧
    Except.map Prod.fst (x.TagSpec d AttrSpec c1) =
      Except.map Prod.fst (y.TagSpec d AttrSpec c2) ∧
    x.TagSpec d AttrSpec = Spec.With d AttrSpec "FSInfo" ∧
    Except.map Prod.fst (x.TagSpec d AttrSpec c1) = Spec.rederive d AttrSpec "FSInfo" ∧
    (∀ s c3, a.TagSpec d AttrSpec c1 = .ok (s, c3) →
      a.TagSpec d AttrSpec c3 = .ok (s, c3)) ∧
    (∀ s c3, x.TagSpec d AttrSpec c1 = .ok (s, c3) →
      x.TagSpec d AttrSpec c3 = .ok (s, c3)) := by
  have p1 := (Stable_With d AttrSpec "Position").run h1.consistent
  have p2 := (Stable_With d AttrSpec "Position").run h2.consistent
  have f1 := (Stable_With d AttrSpec "FSInfo").run h1.consistent
  have f2 := (Stable_With d AttrSpec "FSInfo").run h2.consistent
  refine ⟨p1.trans p2.symm, rfl, p1, f1.trans f2.symm, rfl, f1, ?_, ?_⟩
  · intro s c3 h
    exact With_again h
  · intro s c3 h
    exact With_again h

/-- Witness for C4: two different `Position` values, one asked in the empty cache and
one after the `FSInfo` Spec was derived, on the sample scheme. -/
theorem C4_tagspec_constant_witness :
    Reachable sampleScheme [] ∧
    Reachable sampleScheme
      [((sampleAttrSpec, "FSInfo"), Spec.derive sampleScheme sampleAttrSpec "FSInfo")] ∧
    Except.map Prod.fst (Position.TagSpec sampleScheme sampleAttrSpec (⟨5⟩ : Position Nat) [])
      = Except.map Prod.fst (Position.TagSpec sampleScheme sampleAttrSpec (⟨6⟩ : Position Nat)
        [((sampleAttrSpec, "FSInfo"), Spec.derive sampleScheme sampleAttrSpec "FSInfo")]) ∧
    Except.map Prod.fst (Position.TagSpec sampleScheme sampleAttrSpec (⟨5⟩ : Position Nat) [])
      = .ok (Spec.child "Position" sampleAttrSpec ⟨9, 3, 8, 1⟩) :=
  have r2 : Reachable sampleScheme
      [((sampleAttrSpec, "FSInfo"), Spec.derive sampleScheme sampleAttrSpec "FSInfo")] :=
    @Reachable.step sampleScheme [] _ sampleAttrSpec "FSInfo" _ Reachable.empty rfl
  have h := C4_tagspec_constant sampleScheme sampleAttrSpec (⟨5⟩ : Position Nat)
    (⟨6⟩ : Position Nat) (⟨1, 2, 3⟩ : FSInfo Nat) (⟨4, 5, 6⟩ : FSInfo Nat) [] _
    Reachable.empty r2
  ⟨Reachable.empty, r2, h.1, h.2.2.1.trans rfl⟩

/-- Claim C5: `New` returns a zero-valued instance of the type of its receiver,
whatever the receiver holds: a `Position` with zero fields, an `FSInfo` with
`CreatedAt = 0`, `ModifiedAt = 0` and zero fields besides; the new value reports the
same Spec as the receiver.  (The receiver is only read: `New` has no result for it.) -/
theorem C5_new_zero {P R : Type} [Inhabited P] [Inhabited R] (d : Scheme)
    (AttrSpec : Spec) (v v2 : Position P) (w w2 : FSInfo R) :
    v.New R = Value.position { fields := default } ∧
    v.New R = v2.New R ∧
    w.New P = Value.fsinfo { CreatedAt := 0, ModifiedAt := 0, rest := default } ∧
    w.New P = w2.New P ∧
    (v.New R).TagSpec d AttrSpec = v.TagSpec d AttrSpec ∧
    (w.New P).TagSpec d AttrSpec = w.TagSpec d AttrSpec ∧
    Value.New (Value.position v : Value P R) = v.New R ∧
    Value.New (Value.fsinfo w : Value P R) = w.New P :=
  ⟨rfl, rfl, rfl, rfl, rfl, rfl, rfl, rfl⟩

/-! ## The time setters -/

/-- Claim C1: after `v.SetModifiedAt(t)` the field `ModifiedAt` is the first component
of `tag.FromTime(t, false)` converted to `int64`, after `v.SetCreatedAt(t)` the field
`CreatedAt` is that same value, and the value is a function of `t` alone: whatever the
issuer state and the suffix drawn, every Tag `FromTime` may produce for `t` stores the
same stamp, the encoded time read as `int64`. -/
theorem C1_setters_store_first_component {R : Type} (v : FSInfo R) (t : Time)
    (res : Nat) (g g2 : Issuer) (e e2 : Nat × Nat × Nat) :
    (v.SetModifiedAt t res g e).ModifiedAt
      = toInt64 ((FromTime res g t false e).1.word 0) ∧
    (v.SetCreatedAt t res g e).CreatedAt
      = toInt64 ((FromTime res g t false e).1.word 0) ∧
    (v.SetModifiedAt t res g e).ModifiedAt = (v.SetCreatedAt t res g e).CreatedAt ∧
    toInt64 ((FromTime res g t false e).1.word 0) =
      toInt64 ((FromTime res g2 t false e2).1.word 0) ∧
    (v.SetModifiedAt t res g e).ModifiedAt = (v.SetModifiedAt t res g2 e2).ModifiedAt ∧
    (v.SetCreatedAt t res g e).CreatedAt = (v.SetCreatedAt t res g2 e2).CreatedAt ∧
    (v.SetModifiedAt t res g e).ModifiedAt = toInt64 (encodeTime res t) := by
  simp only [FSInfo.SetModifiedAt, FSInfo.SetCreatedAt, FromTime_word0, and_self]

/-- Claim C9: each setter writes its own field only, the two setters commute, and a
second call of a setter overwrites the first, the final value being that of the last
time passed. -/
theorem C9_setters_frame {R : Type} (v : FSInfo R) (t t1 t2 : Time) (res : Nat)
    (g g1 g2 : Issuer) (e e1 e2 : Nat × Nat × Nat) :
    (v.SetModifiedAt t res g e).CreatedAt = v.CreatedAt ∧
    (v.SetModifiedAt t res g e).rest = v.rest ∧
    (v.SetCreatedAt t res g e).ModifiedAt = v.ModifiedAt ∧
    (v.SetCreatedAt t res g e).rest = v.rest ∧
    (v.SetModifiedAt t2 res g2 e2).SetCreatedAt t1 res g1 e1 =
      (v.SetCreatedAt t1 res g1 e1).SetModifiedAt t2 res g2 e2 ∧
    (v.SetModifiedAt t1 res g1 e1).SetModifiedAt t2 res g2 e2
      = v.SetModifiedAt t2 res g e ∧
    (v.SetCreatedAt t1 res g1 e1).SetCreatedAt t2 res g2 e2
      = v.SetCreatedAt t2 res g e := by
  simp only [FSInfo.SetModifiedAt, FSInfo.SetCreatedAt, FromTime_word0, and_self]

/-- Claim C10: with `c` the first component of `tag.FromTime(t, false)`, the stored
field is `c` when `c < 2^63` and `c - 2^64` otherwise; converting it back to `uint64`
gives `c`; and it is non-negative exactly when `c < 2^63`.  Both setters. -/
theorem C10_int64_conversion {R : Type} (v : FSInfo R) (t : Time) (res : Nat)
    (g : Issuer) (e : Nat × Nat × Nat) :
    ((v.SetModifiedAt t res g e).ModifiedAt =
      if (FromTime res g t false e).1.word 0 < 2 ^ 63
      then ((FromTime res g t false e).1.word 0 : Int)
      else ((FromTime res g t false e).1.word 0 : Int) - 2 ^ 64) ∧
    toUint64 (v.SetModifiedAt t res g e).ModifiedAt
      = (FromTime res g t false e).1.word 0 ∧
    (0 ≤ (v.SetModifiedAt t res g e).ModifiedAt
      ↔ (FromTime res g t false e).1.word 0 < 2 ^ 63) ∧
    ((v.SetCreatedAt t res g e).CreatedAt =
      if (FromTime res g t false e).1.word 0 < 2 ^ 63
      then ((FromTime res g t false e).1.word 0 : Int)
      else ((FromTime res g t false e).1.word 0 : Int) - 2 ^ 64) ∧
    toUint64 (v.SetCreatedAt t res g e).CreatedAt
      = (FromTime res g t false e).1.word 0 ∧
    (0 ≤ (v.SetCreatedAt t res g e).CreatedAt
      ↔ (FromTime res g t false e).1.word 0 < 2 ^ 63) := by
  have hc := encodeTime_lt res t
  simp only [FSInfo.SetModifiedAt, FSInfo.SetCreatedAt, FromTime_word0]
  generalize encodeTime res t = c at hc
  unfold toInt64 toUint64
  have key : ((c : Int) + 2 ^ 63) % 2 ^ 64 - 2 ^ 63 =
      if c < 2 ^ 63 then (c : Int) else (c : Int) - 2 ^ 64 := by
    split <;> omega
  rw [key]
  split <;> refine ⟨rfl, ?_, ?_, rfl, ?_, ?_⟩ <;> omega

end Amp
